import Mathlib

/-!
Verification development for the plugin runtime of the Fuyu_TDBot repository.

The definitions below are a shallow embedding of `src/plugin/PluginManager.ts`
(together with the contract types of `src/plugin/BasePlugin.ts` and the
persisted configuration documents of `src/types/Database.d.ts`).  Stateful
TypeScript code is modelled by explicit state passing; the persisted config
store is a record (`ConfigDB`); black-box plugin callbacks (command handlers,
run-task handlers, `destroy`, `onLoad`) are modelled by their observable
result (`HRes`): either normal completion or a thrown exception carrying a
message.  JavaScript truthiness tests on strings and arrays are reproduced
where the source relies on them.
-/

namespace Fuyu

/-- Result of invoking a black-box JS callback: it either completes normally
or throws an exception carrying a message. -/
inductive HRes
  | ok
  | err (e : String)
deriving DecidableEq, Repr

/-- A `scope` value as the source stores it: either a single string or an
array of strings (`CommandScope` in `BasePlugin.ts`). -/
inductive ScopeVal
  | str (s : String)
  | arr (l : List String)
deriving DecidableEq, Repr

/-- JS truthiness of a scope value: the empty string is falsy, every array
(even the empty one) is truthy. -/
def scopeTruthy : ScopeVal → Bool
  | .str s => !(s == "")
  | .arr _ => true

/-- JS truthiness of a string: falsy exactly when empty. -/
def strTruthy (s : String) : Bool := !(s == "")

/-- Model of `CommandDef` of `BasePlugin.ts`.  The handler function is modelled by an
identity `hid` (to observe which handler got invoked) and its observable
result `outcome`. -/
structure CommandDef where
  description : String := ""
  showInHelp : Option Bool := none
  scope : Option ScopeVal := none
  permission : Option String := none
  hid : Nat := 0
  outcome : HRes := .ok
deriving DecidableEq, Repr

/-- Model of `RunDef` of `BasePlugin.ts`: a named background job.  `cronValid` models
whether constructing the external `CronJob` succeeds on the given
expression; `outcome` is the observable result of one handler firing. -/
structure RunDef where
  description : String := ""
  intervalMs : Option Int := none
  cron : Option String := none
  cronValid : Bool := true
  immediate : Bool := false
  outcome : HRes := .ok
deriving DecidableEq, Repr

/-- A plugin instance satisfying the contract of `BasePlugin.ts`.  Handler
maps are association lists keyed by name (JS object keys are unique).
`destroy = none` means the optional hook is not implemented. -/
structure PluginInstance where
  name : String
  type : String
  version : String
  description : String
  cmdHandlers : List (String × CommandDef) := []
  updateHandlers : List (String × HRes) := []
  runHandlers : List (String × RunDef) := []
  destroy : Option HRes := none
  onLoad : Option HRes := none
deriving DecidableEq, Repr

/-- One entry of the derived `commands` summary stored in `PluginInfo`. -/
structure CommandSummary where
  name : String
  description : String
  scope : Option ScopeVal
  permission : Option String
  showInHelp : Option Bool
deriving DecidableEq, Repr

/-- Model of `PluginInfo` of `BasePlugin.ts`: the registry descriptor built by
`loadPlugin` (`instance` is a Lean keyword, hence the field name `inst`). -/
structure PluginInfo where
  name : String
  version : String
  description : String
  inst : PluginInstance
  commands : List CommandSummary := []
deriving DecidableEq, Repr

/-- A persisted per-command access override
(`CmdConfig.cmd.permissions[commandName]` in `Database.d.ts`): both fields
are optional. -/
structure AccessOverride where
  scope : Option ScopeVal := none
  permission : Option String := none
deriving DecidableEq, Repr

/-- The persisted configuration documents the plugin runtime reads
(`plugins`, `config`, `admin`, `bot` and `me` documents of
`Database.d.ts`), plus the `me` fields consulted by the router. -/
structure ConfigDB where
  disabled : List String := []
  prefixesCfg : Option (List String) := none
  overrides : List (String × AccessOverride) := []
  superAdmin : Option Int := none
  admins : List Int := []
  accountTypeIsBot : Option Bool := none
  isUserAccount : Bool := false
  myId : Option Int := none
  activeUsernames : List String := []
deriving DecidableEq, Repr

/-- First-match lookup in an association list keyed by strings (JS object
property access). -/
def assocFind {α : Type} : List (String × α) → String → Option α
  | [], _ => none
  | kv :: rest, k => if kv.1 == k then some kv.2 else assocFind rest k

/-- Caller permission tier as resolved by `getUserPermission`. -/
inductive Tier
  | owner
  | admin
  | user
deriving DecidableEq, Repr

/-- Source `PluginManager.getUserPermission`: `owner` for the configured
super-admin, `admin` for members of the admin list, else `user`. -/
def getUserPermission (env : ConfigDB) (userId : Int) : Tier :=
  if env.superAdmin == some userId then .owner
  else if env.admins.contains userId then .admin
  else .user

/-- The caller/sender tier used by `handleCommand`:
`userId ? await this.getUserPermission(userId) : "user"` — note that the JS
test is truthiness, so a sender id of `0` (and a missing sender) resolve to
`user`. -/
def resolveTier (env : ConfigDB) (userId : Option Int) : Tier :=
  match userId with
  | some u => if u == 0 then .user else getUserPermission env u
  | none => .user

/-- Result of `validateCommandAccess`. -/
structure AccessResult where
  allowed : Bool
  reason : Option String := none
deriving DecidableEq, Repr

/-- The localized chat-context names used in denial reasons
(`scopeNames[s] || s`). -/
def scopeName : String → String
  | "private" => "私聊"
  | "group" => "群组"
  | "channel" => "频道"
  | s => s

/-- The override step of `validateCommandAccess` (lines 838-853): each
field of a persisted override, when present and truthy, replaces the
corresponding declared value; an absent (or falsy) field leaves the
declared value in force. -/
def applyOverride (env : ConfigDB) (commandName : String) (scope : ScopeVal)
    (permission : String) : ScopeVal × String :=
  match assocFind env.overrides commandName with
  | none => (scope, permission)
  | some ov =>
    let s := match ov.scope with
      | some sv => if scopeTruthy sv then sv else scope
      | none => scope
    let p := match ov.permission with
      | some pv => if strTruthy pv then pv else permission
      | none => permission
    (s, p)

/-- The self-identity check of the user-account branch of
`validateCommandAccess` (line 888): both ids known and equal. -/
def uidIsSelf (env : ConfigDB) (userId : Option Int) : Bool :=
  userId.isSome && env.myId.isSome && userId == env.myId

/-- Source `PluginManager.validateCommandAccess`: persisted override application,
scope check, then the permission check, which differs between the
self-operated (user-account) mode and the bot mode. -/
def validateCommandAccess (env : ConfigDB) (commandName : String)
    (scope0 : ScopeVal) (permission0 : String) (chatType : String)
    (userPermission : Tier) (userId : Option Int) : AccessResult :=
  let sp := applyOverride env commandName scope0 permission0
  let scope := sp.1
  let permission := sp.2
  let scopeArray := match scope with | .str s => [s] | .arr l => l
  if !(scopeArray.contains "all") && !(scopeArray.contains chatType) then
    { allowed := false
      reason := some ("此命令只能在" ++
        String.intercalate "、" ((scopeArray.filter (fun s => !(s == "all"))).map scopeName)
        ++ "中使用") }
  else if env.isUserAccount then
    if uidIsSelf env userId then { allowed := true }
    else if permission == "all" then
      if userPermission ≠ .owner && userPermission ≠ .admin then
        if userId == none || env.myId == none || !(userId == env.myId) then
          { allowed := false, reason := some "此命令需要管理员权限或以上" }
        else { allowed := true }
      else { allowed := true }
    else if permission == "owner" then
      if userPermission ≠ .owner then
        { allowed := false, reason := some "此命令只有超级管理员可以使用" }
      else { allowed := true }
    else if permission == "admin" then
      if userPermission == .user then
        { allowed := false, reason := some "此命令需要管理员权限" }
      else { allowed := true }
    else { allowed := true }
  else if permission == "owner" && userPermission ≠ .owner then
    { allowed := false, reason := some "此命令只有超级管理员可以使用" }
  else if permission == "admin" && userPermission == .user then
    { allowed := false, reason := some "此命令需要管理员权限" }
  else { allowed := true }

/-! ### Command Router (`handleCommand`, lines 968-1113)

String operations are implemented over the character list of a `String` so
that every definition evaluates inside the kernel.  The prefixes used by
the bot are BMP characters, for which the JS UTF-16 index arithmetic of the
source coincides with character counting. -/

/-- Character-list variant of `startsWith` (JS `String.prototype.startsWith`). -/
def sStarts (s p : String) : Bool := p.toList.isPrefixOf s.toList

/-- JS `String.prototype.trim`: strip whitespace from both ends. -/
def sTrim (s : String) : String :=
  String.mk ((((s.toList.dropWhile Char.isWhitespace).reverse).dropWhile
    Char.isWhitespace).reverse)

/-- JS `String.prototype.slice(n)` for a BMP string: drop the first `n`
characters. -/
def sDrop (s : String) (n : Nat) : String := String.mk (s.toList.drop n)

/-- Character count (JS `.length` on BMP strings). -/
def sLen (s : String) : Nat := s.toList.length

/-- Split a character list at every whitespace character (empty groups
kept, as in `"a  b".split` before the `+` collapses them). -/
def splitWsChars : List Char → List (List Char)
  | [] => [[]]
  | c :: cs =>
    let r := splitWsChars cs
    if c.isWhitespace then [] :: r
    else match r with
      | [] => [[c]]
      | g :: gs => (c :: g) :: gs

/-- JS `split(/\s+/)`: whitespace runs separate tokens; on the empty string
the result is `[""]` (one empty token), matching JS. -/
def splitWsPlus (s : String) : List String :=
  let parts := ((splitWsChars s.toList).filter (fun g => !g.isEmpty)).map
    (fun g => String.mk g)
  if parts.isEmpty then [""] else parts

/-- The message contents `handleCommand` extracts text from; every other
content kind falls into the `default` case and is dropped. -/
inductive MsgContent
  | messageText (text : String)
  | messagePhoto (caption : Option String)
  | messageVideo (caption : Option String)
  | messageDocument (caption : Option String)
  | messageAnimation (caption : Option String)
  | messageAudio (caption : Option String)
  | otherContent (tag : String)
deriving DecidableEq, Repr

/-- The switch at the top of `handleCommand`: text of a text message, the
caption (when present) of the five captioned media kinds, nothing else. -/
def extractText : MsgContent → Option String
  | .messageText t => some t
  | .messagePhoto c => c
  | .messageVideo c => c
  | .messageDocument c => c
  | .messageAnimation c => c
  | .messageAudio c => c
  | .otherContent _ => none

/-- An incoming `updateNewMessage`, with the chat classification of the
external `getChatType` collaborator and the sender (when the sender is a
`messageSenderUser`) attached. -/
structure Msg where
  content : MsgContent
  chatType : String
  senderUser : Option Int := none
deriving DecidableEq, Repr

/-- The hard-coded default command prefixes of `handleCommand`. -/
def defaultPrefixes : List String := ["/", "!", "！", ".", "#"]

/-- The effective ordered prefix list: the persisted `PREFIXES` array when
it is present and non-empty, the defaults otherwise. -/
def effectivePrefixes (env : ConfigDB) : List String :=
  match env.prefixesCfg with
  | some l => if l.length > 0 then l else defaultPrefixes
  | none => defaultPrefixes

/-- The `@` split of a command token (`commandName.indexOf("@")`): the
source strips the mention only when the `@` occurs at a positive index. -/
def atSplit (cmd : String) : Option (String × String) :=
  match cmd.toList.findIdx? (fun c => c == '@') with
  | some i =>
    if 0 < i then some (String.mk (cmd.toList.take i), String.mk (cmd.toList.drop (i + 1)))
    else none
  | none => none

/-- The mention-disambiguation step: if the command token carries an
`@mention`, the first active username of the `me` document must match it
(an unknown or empty own username lets the command through); `none` means
the event is silently ignored. -/
def mentionCheck (env : ConfigDB) (commandName : String) (args : List String) :
    Option (String × List String) :=
  match atSplit commandName with
  | none => some (commandName, args)
  | some bt =>
    match env.activeUsernames.head? with
    | some u => if !(u == "") && !(u == bt.2) then none else some (bt.1, args)
    | none => some (bt.1, args)

/-- Tokenisation after a prefix has been selected: strip the prefix, trim,
split on whitespace runs; the head token (with its mention handled) is the
command name, the rest are the arguments. -/
def parseWith (env : ConfigDB) (pfx t : String) : Option (String × List String) :=
  let parts := splitWsPlus (sTrim (sDrop t (sLen pfx)))
  mentionCheck env (parts.headD "") parts.tail

/-- Prefix selection and tokenisation of `handleCommand`: the first prefix
of the effective ordered list that the text starts with is used; no match
means the event is ignored. -/
def parseCommand (env : ConfigDB) (t : String) : Option (String × List String) :=
  match (effectivePrefixes env).find? (fun p => sStarts t p) with
  | none => none
  | some pfx => parseWith env pfx t

/-- Text extraction, the empty-text guard, and command parsing of
`handleCommand`; `none` means the event is ignored before dispatch. -/
def routedCommand (env : ConfigDB) (m : Msg) : Option (String × List String) :=
  match extractText m.content with
  | none => none
  | some t => if sTrim t == "" then none else parseCommand env t

/-- One recorded command-handler invocation: the owning plugin, the
handler identity and its observable result (a thrown exception is caught
and logged at the dispatch boundary). -/
structure Invocation where
  plugin : String
  hid : Nat
  outcome : HRes
deriving DecidableEq, Repr

/-- Defaulting `commandDef.scope || "all"` (JS truthiness). -/
def scopeOrAll (s : Option ScopeVal) : ScopeVal :=
  match s with
  | some sv => if scopeTruthy sv then sv else .str "all"
  | none => .str "all"

/-- Defaulting `commandDef.permission || "all"` (JS truthiness). -/
def permOrAll (p : Option String) : String :=
  match p with
  | some pv => if strTruthy pv then pv else "all"
  | none => "all"

/-- The dispatch loop of `handleCommand` (lines 1080-1112): every
registered plugin whose `cmdHandlers` declares the resolved command name
is access-checked, and when allowed its handler is invoked; a handler
exception is caught and logged without stopping the loop, so it is
recorded as the invocation's `outcome`. -/
def dispatchCommand (env : ConfigDB) (plugins : List PluginInfo)
    (commandName : String) (chatType : String) (tier : Tier)
    (userId : Option Int) : List Invocation :=
  plugins.filterMap (fun pi =>
    match assocFind pi.inst.cmdHandlers commandName with
    | none => none
    | some cd =>
      if (validateCommandAccess env commandName (scopeOrAll cd.scope)
          (permOrAll cd.permission) chatType tier userId).allowed then
        some { plugin := pi.name, hid := cd.hid, outcome := cd.outcome }
      else none)

/-- Source `PluginManager.handleCommand` end to end: the recorded handler
invocations for one incoming new-message update. -/
def handleCommand (env : ConfigDB) (plugins : List PluginInfo) (m : Msg) :
    List Invocation :=
  match routedCommand env m with
  | none => []
  | some c =>
    dispatchCommand env plugins c.1 m.chatType (resolveTier env m.senderUser)
      m.senderUser

/-! ### Registry, Task Scheduler and Lifecycle Controller -/

/-- The mutable state of a `PluginManager`: the registry (a `Map` in
insertion order) and the live timer handles per plugin
(`pluginRunTimers`, mapping a plugin name to the run-task names holding a
live `CronJob`/interval). -/
structure ManagerState where
  plugins : List PluginInfo := []
  pluginRunTimers : List (String × List String) := []
deriving DecidableEq, Repr

/-- First registry entry with the given name (`Map.get` under the
unique-name discipline the manager maintains). -/
def findByName : List PluginInfo → String → Option PluginInfo
  | [], _ => none
  | pi :: rest, n => if pi.name == n then some pi else findByName rest n

/-- Source `PluginManager.getPlugin`. -/
def getPlugin? (st : ManagerState) (n : String) : Option PluginInfo :=
  findByName st.plugins n

/-- Source `PluginManager.hasPlugin`. -/
def hasPlugin (st : ManagerState) (n : String) : Bool :=
  (getPlugin? st n).isSome

/-- Whether `setupPluginRuns` registers a live schedule primitive for one
run task: a truthy `cron` expression takes precedence (an invalid one is
caught, with no interval fallback); otherwise a positive `intervalMs`
starts a repeating timer. -/
def runHasTimer (d : RunDef) : Bool :=
  match d.cron with
  | some c => if !(c == "") then d.cronValid else intervalLive d
  | none => intervalLive d
where
  intervalLive (d : RunDef) : Bool :=
    match d.intervalMs with
    | some i => decide (0 < i)
    | none => false

/-- The run-task names of an instance for which `setupPluginRuns` tracks a
timer. -/
def timersOf (inst : PluginInstance) : List String :=
  inst.runHandlers.filterMap (fun rv => if runHasTimer rv.2 then some rv.1 else none)

/-- Source `PluginManager.clearPluginRuns`: stop every tracked primitive of the
plugin (per-timer stop failures are only logged) and drop the map entry. -/
def clearPluginRuns (st : ManagerState) (pluginName : String) : ManagerState :=
  { st with pluginRunTimers :=
      st.pluginRunTimers.filter (fun kv => !(kv.1 == pluginName)) }

/-- Source `PluginManager.setupPluginRuns`: clear existing timers, then register
the timers of the instance's run tasks; the map entry is created only when
at least one timer was registered. -/
def setupPluginRuns (st : ManagerState) (pluginName : String)
    (inst : PluginInstance) : ManagerState :=
  let st1 := clearPluginRuns st pluginName
  if inst.runHandlers.isEmpty then st1
  else
    let ts := timersOf inst
    if ts.isEmpty then st1
    else { st1 with pluginRunTimers := st1.pluginRunTimers ++ [(pluginName, ts)] }

/-- Source `PluginManager.unloadPlugin`: an unknown name fails; otherwise
`destroy()` is awaited when implemented — the whole body sits in one
`try`, so a throwing `destroy` is logged and the function returns `false`
before the timers are cleared or the registry entry is removed. -/
def unloadPlugin (st : ManagerState) (pluginName : String) : ManagerState × Bool :=
  match getPlugin? st pluginName with
  | none => (st, false)
  | some pi =>
    match pi.inst.destroy with
    | some (.err _) => (st, false)
    | _ =>
      let st1 := clearPluginRuns st pluginName
      ({ st1 with plugins := st1.plugins.filter (fun q => !(q.name == pluginName)) },
        true)

/-- A module candidate found by `scanPluginDir`, as seen by `loadPlugin`:
the import / default-export / instantiation / `instanceof BasePlugin`
failure modes each discard the candidate, a surviving one yields a
constructed instance. -/
inductive Candidate
  | importError
  | noDefault
  | defaultNotClass
  | constructError
  | notBasePlugin
  | inst (p : PluginInstance)
deriving DecidableEq, Repr

/-- The loader's normalisation of command definitions: commands without an
own `showInHelp` property get `showInHelp = true`. -/
def defaultShowInHelp (p : PluginInstance) : PluginInstance :=
  { p with cmdHandlers := p.cmdHandlers.map (fun kv =>
      match kv.2.showInHelp with
      | none => (kv.1, { kv.2 with showInHelp := some true })
      | some _ => kv) }

/-- The required-attribute check of `loadPlugin` (JS truthiness: the empty
string fails it). -/
def hasRequiredFields (p : PluginInstance) : Bool :=
  !(p.name == "") && !(p.version == "") && !(p.description == "") && !(p.type == "")

/-- The account-mode gate of `loadPlugin`, exactly as written in the
source: when the `bot` document holds a boolean `account_type`, a plugin
of type `"bot"` is skipped on a bot account and one of type `"user"` is
skipped on a user account. -/
def typeAllowed (env : ConfigDB) (p : PluginInstance) : Bool :=
  match env.accountTypeIsBot with
  | some isBot =>
    if isBot && p.type == "bot" then false
    else if !isBot && p.type == "user" then false
    else true
  | none => true

/-- The registry descriptor `loadPlugin` builds on success, including the
derived `commands` summary. -/
def registerInfo (p : PluginInstance) : PluginInfo :=
  { name := p.name, version := p.version, description := p.description,
    inst := p,
    commands := p.cmdHandlers.map (fun kv =>
      { name := kv.1, description := kv.2.description, scope := kv.2.scope,
        permission := kv.2.permission, showInHelp := kv.2.showInHelp }) }

/-- Source `PluginManager.loadPlugin` for one candidate: contract validation,
account-mode gate, DisabledSet gate, duplicate-name gate, then
registration followed by `setupPluginRuns`; `onLoad` errors are caught and
do not affect the state.  Every failure leaves the state unchanged. -/
def loadPlugin (env : ConfigDB) (st : ManagerState) (c : Candidate) : ManagerState :=
  match c with
  | .inst p0 =>
    let p := defaultShowInHelp p0
    if !(hasRequiredFields p) then st
    else if !(typeAllowed env p) then st
    else if env.disabled.contains p.name then st
    else if hasPlugin st p.name then st
    else
      let st1 := { st with plugins := st.plugins ++ [registerInfo p] }
      setupPluginRuns st1 p.name p
  | _ => st

/-- Source `PluginManager.scanPluginDir`: each candidate is loaded in directory
order, with per-candidate errors caught so the scan always continues. -/
def scanPlugins (env : ConfigDB) (st : ManagerState) (cs : List Candidate) :
    ManagerState :=
  cs.foldl (loadPlugin env) st

/-- Remove the first occurrence of a string from a list
(`indexOf` followed by `splice(index, 1)`). -/
def removeFirst : List String → String → List String
  | [], _ => []
  | a :: as_, x => if a == x then as_ else a :: removeFirst as_ x

/-- Source `PluginManager.enablePlugin`: remove the name from the persisted
DisabledSet; a name not in the set is an idempotent failure. -/
def enablePlugin (env : ConfigDB) (pluginName : String) : ConfigDB × Bool :=
  if env.disabled.contains pluginName then
    ({ env with disabled := removeFirst env.disabled pluginName }, true)
  else (env, false)

/-- Source `PluginManager.disablePlugin`: a name already disabled fails;
otherwise the name is appended to the persisted DisabledSet and, when the
plugin is currently loaded, `unloadPlugin` runs — its result is ignored by
the source, so `disablePlugin` reports success even when the unload
failed. -/
def disablePlugin (env : ConfigDB) (st : ManagerState) (pluginName : String) :
    ConfigDB × ManagerState × Bool :=
  if env.disabled.contains pluginName then (env, st, false)
  else
    let env1 := { env with disabled := env.disabled ++ [pluginName] }
    if hasPlugin st pluginName then
      let r := unloadPlugin st pluginName
      (env1, r.1, true)
    else (env1, st, true)

/-- An on-disk entry under the plugin root. -/
structure FSEntry where
  path : String
  isDir : Bool
deriving DecidableEq, Repr

/-- The file-system contents relevant to the plugin directory. -/
structure FileSys where
  entries : List FSEntry := []
deriving DecidableEq, Repr

/-- Model of `path.join` for the candidate paths `deletePlugin` probes. -/
def pathJoin (a b : String) : String := a ++ "/" ++ b

/-- The plugin root directory (`path.resolve("./plugins")`). -/
def pluginRoot : String := "plugins"

/-- Model of `fs.existsSync`. -/
def pathExists (fs : FileSys) (p : String) : Bool :=
  fs.entries.any (fun e => e.path == p)

/-- Whether the path is a directory (`statSync(...).isDirectory()`). -/
def isDirAt (fs : FileSys) (p : String) : Bool :=
  fs.entries.any (fun e => e.path == p && e.isDir)

/-- Removal: recursive `rmSync` on a directory, `unlinkSync` on a
file. -/
def rmPath (fs : FileSys) (p : String) : FileSys :=
  if isDirAt fs p then
    { entries := fs.entries.filter
        (fun e => !(e.path == p) && !(sStarts e.path (p ++ "/"))) }
  else { entries := fs.entries.filter (fun e => !(e.path == p)) }

/-- The candidate paths `deletePlugin` probes for the named plugin, in
probe order. -/
def deleteCandidates (pluginName : String) : List String :=
  [ pathJoin pluginRoot pluginName,
    pathJoin pluginRoot (pluginName ++ ".ts"),
    pathJoin pluginRoot (pluginName ++ ".js"),
    pathJoin (pathJoin pluginRoot pluginName) "index.ts",
    pathJoin (pathJoin pluginRoot pluginName) "index.js" ]

/-- The tail of `deletePlugin` once a path was found and any required
unload succeeded: remove the file-system entry and drop the name from the
DisabledSet when present. -/
def deleteFound (env : ConfigDB) (fs : FileSys) (st : ManagerState) (p : String)
    (pluginName : String) : ConfigDB × FileSys × ManagerState × Bool :=
  let fs1 := rmPath fs p
  let env1 :=
    if env.disabled.contains pluginName then
      { env with disabled := removeFirst env.disabled pluginName }
    else env
  (env1, fs1, st, true)

/-- Source `PluginManager.deletePlugin`: probe the candidate paths; a missing
plugin is a logged no-op failure; a loaded plugin is unloaded first (a
failing unload aborts the deletion); then the path is removed and the
DisabledSet cleaned up. -/
def deletePlugin (env : ConfigDB) (fs : FileSys) (st : ManagerState)
    (pluginName : String) : ConfigDB × FileSys × ManagerState × Bool :=
  match (deleteCandidates pluginName).find? (fun p => pathExists fs p) with
  | none => (env, fs, st, false)
  | some p =>
    if hasPlugin st pluginName then
      match unloadPlugin st pluginName with
      | (st1, false) => (env, fs, st1, false)
      | (st1, true) => deleteFound env fs st1 p pluginName
    else deleteFound env fs st p pluginName

/-- Source `PluginManager.reloadPlugin`: unload first when loaded (a failing
unload aborts the reload), then rescan the plugin directory (modelled by
the candidate list the rescan would discover) and report whether the name
is registered afterwards. -/
def reloadPlugin (env : ConfigDB) (st : ManagerState) (pluginName : String)
    (found : List Candidate) : ManagerState × Bool :=
  match getPlugin? st pluginName with
  | some _ =>
    match unloadPlugin st pluginName with
    | (st1, false) => (st1, false)
    | (st1, true) =>
      let st2 := scanPlugins env st1 found
      (st2, hasPlugin st2 pluginName)
  | none =>
    let st2 := scanPlugins env st found
    (st2, hasPlugin st2 pluginName)

/-- The error a manual run-task trigger surfaces to its caller. -/
inductive RunError
  | pluginNotFound (pluginName : String)
  | runNotFound (pluginName runName : String)
  | handlerError (e : String)
deriving DecidableEq, Repr

/-- Source `PluginManager.triggerPluginRun`: throws for an unknown plugin or an
unknown run task, and re-throws a handler exception to the caller after
logging it. -/
def triggerPluginRun (st : ManagerState) (pluginName runName : String) :
    Except RunError Unit :=
  match getPlugin? st pluginName with
  | none => .error (.pluginNotFound pluginName)
  | some pi =>
    match assocFind pi.inst.runHandlers runName with
    | none => .error (.runNotFound pluginName runName)
    | some d =>
      match d.outcome with
      | .ok => .ok ()
      | .err e => .error (.handlerError e)

/-- Source `PluginManager.runPluginTask`, the public wrapper. -/
def runPluginTask (st : ManagerState) (pluginName runName : String) :
    Except RunError Unit :=
  triggerPluginRun st pluginName runName

/-- One scheduled (cron/interval/immediate) firing of a run task: the
handler exception is caught inside the timer callback, so the firing only
produces log lines and never propagates an error. -/
def scheduledFire (pluginName runName : String) (d : RunDef) : List String :=
  match d.outcome with
  | .ok => []
  | .err e =>
    ["[插件管理] 插件 " ++ pluginName ++ " run " ++ runName ++ " 执行出错: " ++ e]

/-- The combined persisted-plus-runtime state every lifecycle operation
acts on. -/
structure World where
  env : ConfigDB
  fs : FileSys := {}
  st : ManagerState := {}
deriving DecidableEq, Repr

/-- The lifecycle operations mediated by the manager. -/
inductive Op
  | scan (cs : List Candidate)
  | unload (n : String)
  | enable (n : String)
  | disable (n : String)
  | reload (n : String) (cs : List Candidate)
  | delete (n : String)
deriving Repr

/-- One lifecycle operation as a transition on the combined state. -/
def stepOp (w : World) : Op → World
  | .scan cs => { w with st := scanPlugins w.env w.st cs }
  | .unload n => { w with st := (unloadPlugin w.st n).1 }
  | .enable n => { w with env := (enablePlugin w.env n).1 }
  | .disable n =>
    let r := disablePlugin w.env w.st n
    { w with env := r.1, st := r.2.1 }
  | .reload n cs => { w with st := (reloadPlugin w.env w.st n cs).1 }
  | .delete n =>
    let r := deletePlugin w.env w.fs w.st n
    { env := r.1, fs := r.2.1, st := r.2.2.1 }

/-! ### Derived notions used by the theorems -/

/-- The registered plugin names, in registration order. -/
def pluginNames (st : ManagerState) : List String :=
  st.plugins.map (fun pi => pi.name)

/-- The observable identity of an invocation, independent of the
handler's outcome. -/
def invokedKey (i : Invocation) : String × Nat := (i.plugin, i.hid)

/-- Whether a registered plugin declares the command and passes the access
check for the given call context. -/
def declaresAllowed (env : ConfigDB) (commandName chatType : String)
    (tier : Tier) (userId : Option Int) (pi : PluginInfo) : Bool :=
  match assocFind pi.inst.cmdHandlers commandName with
  | none => false
  | some cd =>
    (validateCommandAccess env commandName (scopeOrAll cd.scope)
      (permOrAll cd.permission) chatType tier userId).allowed

/-- Replace every command handler's observable outcome of a plugin
(modelling different or faulty handler bodies), leaving the declarations
and access metadata untouched. -/
def mapOutcome (f : String → String → HRes → HRes) (pi : PluginInfo) : PluginInfo :=
  let newCmds := pi.inst.cmdHandlers.map
    (fun kv => (kv.1, { kv.2 with outcome := f pi.name kv.1 kv.2.outcome }))
  { pi with inst := { pi.inst with cmdHandlers := newCmds } }

/-- Invariant of the spec's data model: a name in the persisted
DisabledSet is never registered. -/
def RegInv (w : World) : Prop :=
  ∀ n, n ∈ w.env.disabled → hasPlugin w.st n = false

/-- No registered plugin has a `destroy` hook that throws. -/
def DestroySafe (st : ManagerState) : Prop :=
  ∀ pi ∈ st.plugins, ∀ e, pi.inst.destroy ≠ some (.err e)

/-- The override step as the specification words it: a present override
fully replaces both declared values — an absent field falls back to the
documented default `"all"` — with no field-wise merge.  Kept separate from
`applyOverride` (the source behaviour) for comparison. -/
def applyOverrideSpec (env : ConfigDB) (commandName : String) (scope : ScopeVal)
    (permission : String) : ScopeVal × String :=
  match assocFind env.overrides commandName with
  | none => (scope, permission)
  | some ov => (ov.scope.getD (.str "all"), ov.permission.getD "all")

/-! ### Concrete fixtures used by witnesses and counterexamples -/

/-- Fixture: a well-behaved `ping` handler. -/
def pingOk : CommandDef := { hid := 1 }

/-- Fixture: a `ping` handler that throws. -/
def pingBoom : CommandDef := { hid := 2, outcome := .err "boom" }

/-- Fixture: plugin `a`, declaring `ping`. -/
def plugA : PluginInstance :=
  { name := "a", type := "general", version := "1", description := "dA",
    cmdHandlers := [("ping", pingOk)] }

/-- Fixture: plugin `b`, also declaring `ping`, with a throwing handler. -/
def plugB : PluginInstance :=
  { name := "b", type := "general", version := "1", description := "dB",
    cmdHandlers := [("ping", pingBoom)] }

/-- Fixture: an interval run task. -/
def tickDef : RunDef := { intervalMs := some 1000 }

/-- Fixture: a run task whose handler throws. -/
def tockBoom : RunDef := { outcome := .err "tock failed" }

/-- Fixture: a plugin whose `destroy` hook throws, with a live timer. -/
def plugBoomDestroy : PluginInstance :=
  { name := "p", type := "general", version := "1", description := "d",
    destroy := some (.err "boom"), runHandlers := [("tick", tickDef)] }

/-- Fixture: a plugin with a clean `destroy` hook and a live timer. -/
def plugCleanDestroy : PluginInstance :=
  { name := "g", type := "general", version := "1", description := "d",
    destroy := some .ok, runHandlers := [("tick", tickDef)] }

/-- Fixture: the manager state after scanning `plugBoomDestroy`. -/
def stBoom : ManagerState := scanPlugins {} {} [.inst plugBoomDestroy]

/-- Fixture: the manager state after scanning `plugCleanDestroy`. -/
def stClean : ManagerState := scanPlugins {} {} [.inst plugCleanDestroy]

/-- Fixture: a plugin exposing a failing run task `bad` and nothing else. -/
def plugRuns : PluginInstance :=
  { name := "q", type := "general", version := "1", description := "d",
    runHandlers := [("bad", tockBoom)] }

/-- Fixture: a registry holding only `plugRuns`. -/
def stRuns : ManagerState := { plugins := [registerInfo plugRuns] }

/-- Fixture: a host configuration whose first active username is `mybot`. -/
def envHost : ConfigDB := { activeUsernames := ["mybot"] }

/-- Fixture: an override of only the `scope` field for command `c`. -/
def ovScopeOnly : AccessOverride := { scope := some (.str "private") }

/-- Fixture: a configuration persisting `ovScopeOnly` for command `c`. -/
def envOv : ConfigDB := { overrides := [("c", ovScopeOnly)] }

/-- Fixture: a second plugin declaring the name `a` (a duplicate of
`plugA` with different metadata). -/
def plugA2 : PluginInstance :=
  { name := "a", type := "general", version := "2", description := "dup",
    cmdHandlers := [("pong", pingOk)] }

/-- The observable identity a plugin contributes to the dispatch of a
command — `none` when it does not declare the command or its access check
fails; mentions nothing about handler outcomes. -/
def keyDispatch (env : ConfigDB) (cmd ct : String) (tier : Tier)
    (uid : Option Int) (pi : PluginInfo) : Option (String × Nat) :=
  match assocFind pi.inst.cmdHandlers cmd with
  | none => none
  | some cd =>
    if (validateCommandAccess env cmd (scopeOrAll cd.scope)
        (permOrAll cd.permission) ct tier uid).allowed then
      some (pi.name, cd.hid)
    else none

/-- Fixture: the two-plugin registry `a`, `b`, both declaring `ping`. -/
def psAB : List PluginInfo := [registerInfo plugA, registerInfo plugB]

/-- Fixture: the incoming message `/ping` in a private chat. -/
def msgPing : Msg := { content := .messageText "/ping", chatType := "private" }

/-- The self-operated-mode self-identity exception: user-account mode and
the caller's id equals the account's own id (both known). -/
def selfCaller (env : ConfigDB) (userId : Option Int) : Bool :=
  env.isUserAccount && uidIsSelf env userId

/-- Fixture: a message whose text carries no command prefix. -/
def msgPlain : Msg := { content := .messageText "hello world", chatType := "group" }

/-- Fixture: the message `/ping@otherbot` of the spec's end-to-end case. -/
def msgPingOther : Msg :=
  { content := .messageText "/ping@otherbot", chatType := "private" }

/-- Fixture: the message `/ping@mybot`, mentioning the host itself. -/
def msgPingSelf : Msg :=
  { content := .messageText "/ping@mybot", chatType := "private" }


/-! ### Helper lemmas -/

theorem assocFind_map_snd {α β : Type} (g : String → α → β) (l : List (String × α))
    (k : String) :
    assocFind (l.map (fun kv => (kv.1, g kv.1 kv.2))) k = (assocFind l k).map (g k) := by
  induction l with
  | nil => rfl
  | cons kv rest ih =>
    by_cases h : kv.1 == k
    · have hk : kv.1 = k := by exact beq_iff_eq.mp h
      simp [assocFind, h, hk]
    · simp [assocFind, h, ih]

theorem findByName_append (l1 l2 : List PluginInfo) (n : String) :
    findByName (l1 ++ l2) n = ((findByName l1 n).or (findByName l2 n)) := by
  induction l1 with
  | nil => simp [findByName]
  | cons pi rest ih =>
    by_cases h : pi.name == n
    · simp [findByName, h]
    · simp [findByName, h, ih]

theorem findByName_isSome_iff (l : List PluginInfo) (n : String) :
    (findByName l n).isSome = true ↔ ∃ pi ∈ l, pi.name = n := by
  induction l with
  | nil => simp [findByName]
  | cons pi rest ih =>
    by_cases h : pi.name == n
    · have hk : pi.name = n := beq_iff_eq.mp h
      simp [findByName, h, hk]
    · have hk : ¬pi.name = n := by
        intro he
        exact h (beq_iff_eq.mpr he)
      simp [findByName, h, ih, hk]

theorem findByName_some_mem {l : List PluginInfo} {n : String} {pi : PluginInfo}
    (h : findByName l n = some pi) : pi ∈ l ∧ pi.name = n := by
  induction l with
  | nil => simp [findByName] at h
  | cons q rest ih =>
    by_cases hq : q.name == n
    · simp [findByName, hq] at h
      exact ⟨by simp [← h], by rw [← h]; exact beq_iff_eq.mp hq⟩
    · simp [findByName, hq] at h
      rcases ih h with ⟨h1, h2⟩
      exact ⟨List.mem_cons_of_mem _ h1, h2⟩

theorem findByName_filter_self (l : List PluginInfo) (n : String) :
    findByName (l.filter (fun q => !(q.name == n))) n = none := by
  induction l with
  | nil => rfl
  | cons q rest ih =>
    by_cases hq : q.name == n
    · simp [List.filter_cons, hq, ih]
    · simp [List.filter_cons, hq, findByName, ih]

theorem hasPlugin_filter_le (l : List PluginInfo) (f : PluginInfo → Bool)
    (m : String) (h : (findByName (l.filter f) m).isSome = true) :
    (findByName l m).isSome = true := by
  rw [findByName_isSome_iff] at h ⊢
  rcases h with ⟨pi, hmem, hname⟩
  exact ⟨pi, (List.mem_filter.mp hmem).1, hname⟩

theorem plugins_clearPluginRuns (st : ManagerState) (n : String) :
    (clearPluginRuns st n).plugins = st.plugins := rfl

theorem plugins_setupPluginRuns (st : ManagerState) (n : String)
    (inst : PluginInstance) : (setupPluginRuns st n inst).plugins = st.plugins := by
  by_cases h1 : inst.runHandlers.isEmpty <;>
    by_cases h2 : (timersOf inst).isEmpty <;>
      simp [setupPluginRuns, clearPluginRuns, h1, h2]

theorem name_defaultShowInHelp (p : PluginInstance) :
    (defaultShowInHelp p).name = p.name := rfl

theorem hasPlugin_unload_le (st : ManagerState) (n m : String)
    (h : hasPlugin (unloadPlugin st n).1 m = true) : hasPlugin st m = true := by
  rcases hf : getPlugin? st n with _ | pi
  · simp only [unloadPlugin, hf] at h
    exact h
  · rcases hdes : pi.inst.destroy with _ | r
    · simp only [unloadPlugin, hf, hdes] at h
      exact hasPlugin_filter_le _ _ _ h
    · cases r with
      | ok =>
        simp only [unloadPlugin, hf, hdes] at h
        exact hasPlugin_filter_le _ _ _ h
      | err e =>
        simp only [unloadPlugin, hf, hdes] at h
        exact h

theorem unload_removes (st : ManagerState) (n : String)
    (hd : DestroySafe st) (h : hasPlugin st n = true) :
    (unloadPlugin st n).2 = true ∧ hasPlugin (unloadPlugin st n).1 n = false := by
  unfold hasPlugin at h
  rcases hf : getPlugin? st n with _ | pi
  · rw [hf] at h
    simp at h
  · have hmem := findByName_some_mem hf
    have hsafe := hd pi hmem.1
    have hf2 : findByName st.plugins n = some pi := hf
    rcases hdes : pi.inst.destroy with _ | r
    · constructor
      · simp [unloadPlugin, getPlugin?, hf2, hdes]
      · simp [unloadPlugin, getPlugin?, hf2, hdes, hasPlugin, clearPluginRuns,
          findByName_filter_self]
    · cases r with
      | ok =>
        constructor
        · simp [unloadPlugin, getPlugin?, hf2, hdes]
        · simp [unloadPlugin, getPlugin?, hf2, hdes, hasPlugin, clearPluginRuns,
            findByName_filter_self]
      | err e => exact absurd hdes (hsafe e)

theorem registerInfo_name (p : PluginInstance) : (registerInfo p).name = p.name := rfl

theorem findByName_append_ne (l : List PluginInfo) (x : PluginInfo) (n : String)
    (h : ¬x.name = n) : findByName (l ++ [x]) n = findByName l n := by
  rw [findByName_append]
  have hb : (x.name == n) = false := by
    simp [h]
  have hx : findByName [x] n = none := by
    simp [findByName, hb]
  rw [hx]
  cases findByName l n <;> rfl

theorem hasPlugin_false_not_mem (st : ManagerState) (n : String)
    (h : hasPlugin st n = false) : n ∉ pluginNames st := by
  intro hmem
  rcases List.mem_map.mp hmem with ⟨pi, hpi, hname⟩
  have : hasPlugin st n = true := by
    unfold hasPlugin getPlugin?
    exact (findByName_isSome_iff _ _).mpr ⟨pi, hpi, hname⟩
  rw [h] at this
  exact Bool.false_ne_true this

theorem loadPlugin_inst_dup (env : ConfigDB) (st : ManagerState) (p0 : PluginInstance)
    (h : hasPlugin st (defaultShowInHelp p0).name = true) :
    loadPlugin env st (.inst p0) = st := by
  by_cases h1 : hasRequiredFields (defaultShowInHelp p0) <;>
    by_cases h2 : typeAllowed env (defaultShowInHelp p0) <;>
      by_cases h3 : (defaultShowInHelp p0).name ∈ env.disabled <;>
        simp [loadPlugin, h, h1, h2, h3]

theorem getPlugin?_loadPlugin_stable (env : ConfigDB) (st : ManagerState)
    (c : Candidate) (n : String)
    (h : n ∈ env.disabled ∨ hasPlugin st n = true) :
    getPlugin? (loadPlugin env st c) n = getPlugin? st n := by
  cases c with
  | importError => rfl
  | noDefault => rfl
  | defaultNotClass => rfl
  | constructError => rfl
  | notBasePlugin => rfl
  | inst p0 =>
    by_cases h1 : hasRequiredFields (defaultShowInHelp p0) <;>
      by_cases h2 : typeAllowed env (defaultShowInHelp p0) <;>
        by_cases h3 : (defaultShowInHelp p0).name ∈ env.disabled <;>
          by_cases h4 : hasPlugin st (defaultShowInHelp p0).name <;>
            simp [loadPlugin, h1, h2, h3, h4, getPlugin?, plugins_setupPluginRuns]
    have hne : ¬(defaultShowInHelp p0).name = n := by
      intro he
      rcases h with hdis | hhas
      · rw [he] at h3
        exact h3 hdis
      · rw [he] at h4
        exact h4 hhas
    exact findByName_append_ne st.plugins (registerInfo (defaultShowInHelp p0)) n hne

theorem getPlugin?_scan_stable (env : ConfigDB) (cs : List Candidate) :
    ∀ (st : ManagerState) (n : String),
      n ∈ env.disabled ∨ hasPlugin st n = true →
      getPlugin? (scanPlugins env st cs) n = getPlugin? st n := by
  induction cs with
  | nil => intro st n _; rfl
  | cons c rest ih =>
    intro st n h
    have h1 := getPlugin?_loadPlugin_stable env st c n h
    have h2 : n ∈ env.disabled ∨ hasPlugin (loadPlugin env st c) n = true := by
      rcases h with hdis | hhas
      · exact Or.inl hdis
      · exact Or.inr (by unfold hasPlugin; rw [h1]; exact hhas)
    calc getPlugin? (scanPlugins env (loadPlugin env st c) rest) n
        = getPlugin? (loadPlugin env st c) n := ih (loadPlugin env st c) n h2
      _ = getPlugin? st n := h1

theorem nodup_loadPlugin (env : ConfigDB) (st : ManagerState) (c : Candidate)
    (h : (pluginNames st).Nodup) : (pluginNames (loadPlugin env st c)).Nodup := by
  cases c with
  | importError => exact h
  | noDefault => exact h
  | defaultNotClass => exact h
  | constructError => exact h
  | notBasePlugin => exact h
  | inst p0 =>
    by_cases h1 : hasRequiredFields (defaultShowInHelp p0) <;>
      by_cases h2 : typeAllowed env (defaultShowInHelp p0) <;>
        by_cases h3 : (defaultShowInHelp p0).name ∈ env.disabled <;>
          by_cases h4 : hasPlugin st (defaultShowInHelp p0).name <;>
            simp [loadPlugin, h1, h2, h3, h4, pluginNames, plugins_setupPluginRuns] <;>
              try exact h
    have hnm := hasPlugin_false_not_mem st (defaultShowInHelp p0).name (by
      rw [Bool.eq_false_iff]
      exact h4)
    rw [List.nodup_append]
    refine ⟨by simpa [pluginNames] using h, List.nodup_singleton _, ?_⟩
    intro a ha hb
    rcases List.mem_singleton.mp hb with rfl
    exact hnm (by simpa [pluginNames] using ha)

theorem nodup_scan (env : ConfigDB) (cs : List Candidate) :
    ∀ st : ManagerState, (pluginNames st).Nodup →
      (pluginNames (scanPlugins env st cs)).Nodup := by
  induction cs with
  | nil => intro st h; exact h
  | cons c rest ih =>
    intro st h
    exact ih (loadPlugin env st c) (nodup_loadPlugin env st c h)

/-! ### Claim C9 -/

/-- Claim C9: for a plugin name with no corresponding file or directory
under the plugin root, `deletePlugin` returns failure without throwing and
leaves the registry, the on-disk plugin directory and the persisted
DisabledSet unchanged. -/
theorem deletePlugin_missing_noop (env : ConfigDB) (fs : FileSys)
    (st : ManagerState) (n : String)
    (h : ∀ p ∈ deleteCandidates n, pathExists fs p = false) :
    deletePlugin env fs st n = (env, fs, st, false) := by
  have hf : (deleteCandidates n).find? (fun p => pathExists fs p) = none := by
    rw [List.find?_eq_none]
    intro x hx
    simp [h x hx]
  simp [deletePlugin, hf]

/-- Witness for C9: deleting the unknown name `ghost` from an empty plugin
directory fails and changes nothing. -/
theorem deletePlugin_missing_noop_witness :
    (∀ p ∈ deleteCandidates "ghost", pathExists {} p = false)
    ∧ deletePlugin {} {} {} "ghost" = ({}, {}, {}, false) :=
  ⟨by decide, deletePlugin_missing_noop {} {} {} "ghost" (by decide)⟩

/-! ### Claim C10 -/

/-- Claim C10: `runPluginTask` delegates to `triggerPluginRun`, which
throws for an unknown plugin and for an unknown run-task name, and —
unlike scheduled or immediate firings, which only log — re-propagates a
handler exception to the caller. -/
theorem triggerPluginRun_error_contract (st : ManagerState) (pn rn : String) :
    (runPluginTask st pn rn = triggerPluginRun st pn rn)
    ∧ (getPlugin? st pn = none →
        triggerPluginRun st pn rn = .error (.pluginNotFound pn))
    ∧ (∀ pi, getPlugin? st pn = some pi →
        assocFind pi.inst.runHandlers rn = none →
        triggerPluginRun st pn rn = .error (.runNotFound pn rn))
    ∧ (∀ pi d e, getPlugin? st pn = some pi →
        assocFind pi.inst.runHandlers rn = some d → d.outcome = .err e →
        triggerPluginRun st pn rn = .error (.handlerError e)
        ∧ scheduledFire pn rn d =
            ["[插件管理] 插件 " ++ pn ++ " run " ++ rn ++ " 执行出错: " ++ e]) := by
  refine ⟨rfl, ?_, ?_, ?_⟩
  · intro h
    simp [triggerPluginRun, h]
  · intro pi h1 h2
    simp [triggerPluginRun, h1, h2]
  · intro pi d e h1 h2 h3
    exact ⟨by simp [triggerPluginRun, h1, h2, h3], by simp [scheduledFire, h3]⟩

/-- Witness for C10: the three failure modes on a concrete registry, and
the contrasting scheduled firing that merely logs. -/
theorem triggerPluginRun_error_contract_witness :
    triggerPluginRun stRuns "missing" "x" = .error (.pluginNotFound "missing")
    ∧ triggerPluginRun stRuns "q" "nope" = .error (.runNotFound "q" "nope")
    ∧ triggerPluginRun stRuns "q" "bad" = .error (.handlerError "tock failed")
    ∧ scheduledFire "q" "bad" tockBoom =
        ["[插件管理] 插件 q run bad 执行出错: tock failed"] := by
  refine ⟨?_, ?_, ?_, ?_⟩
  · exact (triggerPluginRun_error_contract stRuns "missing" "x").2.1 (by decide)
  · exact (triggerPluginRun_error_contract stRuns "q" "nope").2.2.1
      (registerInfo plugRuns) (by decide) (by decide)
  · exact ((triggerPluginRun_error_contract stRuns "q" "bad").2.2.2
      (registerInfo plugRuns) tockBoom "tock failed" (by decide) (by decide) rfl).1
  · exact ((triggerPluginRun_error_contract stRuns "q" "bad").2.2.2
      (registerInfo plugRuns) tockBoom "tock failed" (by decide) (by decide) rfl).2

/-! ### Claim C2 -/

/-- Counterexample for C2: on a plugin whose `destroy()` throws,
`unloadPlugin` returns failure with the plugin still registered and its
scheduled task timer still live — the claim's "tasks cancelled and plugin
removed even when destroy() threw" is false on the code. -/
theorem unloadPlugin_destroy_throw_counterexample :
    unloadPlugin stBoom "p" = (stBoom, false)
    ∧ hasPlugin stBoom "p" = true
    ∧ stBoom.pluginRunTimers = [("p", ["tick"])] := by decide

/-- Claim C2 (amended): `unloadPlugin` awaits `destroy()` when
implemented; when `destroy()` does not throw (or is absent), the plugin's
timers are cancelled, it is removed from the registry, and the unload
succeeds; when `destroy()` throws, the error is logged and the unload
fails, leaving the plugin registered and its timers uncancelled. -/
theorem unloadPlugin_destroy_semantics (st : ManagerState) (n : String)
    (pi : PluginInfo) (hf : getPlugin? st n = some pi) :
    ((∀ e, pi.inst.destroy ≠ some (.err e)) →
      (unloadPlugin st n).2 = true
      ∧ hasPlugin (unloadPlugin st n).1 n = false
      ∧ (unloadPlugin st n).1.pluginRunTimers.find? (fun kv => kv.1 == n) = none)
    ∧ (∀ e, pi.inst.destroy = some (.err e) → unloadPlugin st n = (st, false)) := by
  have hf2 : findByName st.plugins n = some pi := hf
  constructor
  · intro hsafe
    have hhas : hasPlugin st n = true := by
      unfold hasPlugin
      rw [hf]
      rfl
    rcases hdes : pi.inst.destroy with _ | r
    · refine ⟨by simp [unloadPlugin, getPlugin?, hf2, hdes], ?_, ?_⟩
      · simp [unloadPlugin, getPlugin?, hf2, hdes, hasPlugin, clearPluginRuns,
          findByName_filter_self]
      · simp only [unloadPlugin, getPlugin?, hf2, hdes, clearPluginRuns]
        rw [List.find?_eq_none]
        intro kv hkv
        have := (List.mem_filter.mp hkv).2
        simpa using this
    · cases r with
      | ok =>
        refine ⟨by simp [unloadPlugin, getPlugin?, hf2, hdes], ?_, ?_⟩
        · simp [unloadPlugin, getPlugin?, hf2, hdes, hasPlugin, clearPluginRuns,
            findByName_filter_self]
        · simp only [unloadPlugin, getPlugin?, hf2, hdes, clearPluginRuns]
          rw [List.find?_eq_none]
          intro kv hkv
          have := (List.mem_filter.mp hkv).2
          simpa using this
      | err e => exact absurd hdes (hsafe e)
  · intro e hdes
    simp [unloadPlugin, getPlugin?, hf2, hdes]

/-- Witness for the amended C2: unloading the fixture plugin `g` (clean
`destroy`) removes it and its timer; unloading the fixture plugin `p`
(throwing `destroy`) fails and leaves the state untouched. -/
theorem unloadPlugin_destroy_semantics_witness :
    ((unloadPlugin stClean "g").2 = true
      ∧ hasPlugin (unloadPlugin stClean "g").1 "g" = false
      ∧ (unloadPlugin stClean "g").1.pluginRunTimers.find? (fun kv => kv.1 == "g") = none)
    ∧ unloadPlugin stBoom "p" = (stBoom, false) := by
  constructor
  · exact (unloadPlugin_destroy_semantics stClean "g"
      (registerInfo plugCleanDestroy) (by decide)).1
      (by intro e; simp [registerInfo, plugCleanDestroy])
  · exact (unloadPlugin_destroy_semantics stBoom "p"
      (registerInfo plugBoomDestroy) (by decide)).2 "boom" rfl

/-! ### Claim C3 -/

/-- Counterexample for C3: a persisted override that sets only `scope`
leaves the code-declared `permission` in force — the source merges
field by field, it does not fully replace the pair; under a full replacement
(`applyOverrideSpec`) the declared `"owner"` permission would be gone,
while the code still denies an admin-tier caller for it. -/
theorem applyOverride_fieldwise_counterexample :
    applyOverride envOv "c" (.str "group") "owner" = (.str "private", "owner")
    ∧ applyOverrideSpec envOv "c" (.str "group") "owner" = (.str "private", "all")
    ∧ applyOverride envOv "c" (.str "group") "owner"
        ≠ applyOverrideSpec envOv "c" (.str "group") "owner"
    ∧ (validateCommandAccess envOv "c" (.str "group") "owner" "private" .admin
        none).allowed = false := by decide

/-- Claim C3 (amended): when a persisted override exists for the command
name, each present (truthy) field of it replaces the corresponding
declared value wholesale — an absent field leaves the declared value in
force — and this substitution happens before the scope and permission
checks are evaluated. -/
theorem applyOverride_fieldwise_before_checks (env : ConfigDB) (cmd : String)
    (s : ScopeVal) (p : String) (ct : String) (tier : Tier) (uid : Option Int)
    (ov : AccessOverride) (hov : assocFind env.overrides cmd = some ov) :
    applyOverride env cmd s p =
      ((match ov.scope with
        | some sv => if scopeTruthy sv then sv else s
        | none => s),
       (match ov.permission with
        | some pv => if strTruthy pv then pv else p
        | none => p))
    ∧ validateCommandAccess env cmd s p ct tier uid =
        validateCommandAccess { env with overrides := [] } cmd
          (applyOverride env cmd s p).1 (applyOverride env cmd s p).2 ct tier uid := by
  constructor
  · simp [applyOverride, hov]
  · simp only [validateCommandAccess, applyOverride, hov, assocFind, uidIsSelf]

/-- Witness for the amended C3: the scope-only override for `c` yields the
overridden scope with the declared permission, and the full resolver
decision equals the decision on the substituted pair. -/
theorem applyOverride_fieldwise_before_checks_witness :
    applyOverride envOv "c" (.str "group") "admin" = (.str "private", "admin")
    ∧ validateCommandAccess envOv "c" (.str "group") "admin" "private" .user none =
        validateCommandAccess { envOv with overrides := [] } "c"
          (.str "private") "admin" "private" .user none := by
  have h := applyOverride_fieldwise_before_checks envOv "c" (.str "group") "admin"
    "private" .user none ovScopeOnly (by decide)
  constructor
  · exact h.1
  · have h2 := h.2
    rw [show applyOverride envOv "c" (.str "group") "admin" =
      (.str "private", "admin") from h.1] at h2
    exact h2

/-! ### Claim C5 -/

theorem hasPlugin_true_mem (st : ManagerState) (n : String)
    (h : hasPlugin st n = true) : n ∈ pluginNames st := by
  unfold hasPlugin getPlugin? at h
  rcases (findByName_isSome_iff _ _).mp h with ⟨pi, hmem, hname⟩
  exact List.mem_map.mpr ⟨pi, hmem, hname⟩

/-- Claim C5: when a later scan candidate declares a plugin name that is
already registered, the duplicate is rejected without aborting the scan
(the scan equals the scan of the remaining candidates), the first
registered descriptor is untouched, the registry names stay duplicate-free
and the name occurs exactly once. -/
theorem scan_duplicate_name_first_wins (env : ConfigDB) (st : ManagerState)
    (l1 l2 : List Candidate) (p : PluginInstance)
    (h : hasPlugin (scanPlugins env st l1) p.name = true)
    (hnd : (pluginNames st).Nodup) :
    scanPlugins env st (l1 ++ .inst p :: l2)
      = scanPlugins env (scanPlugins env st l1) l2
    ∧ getPlugin? (scanPlugins env st (l1 ++ .inst p :: l2)) p.name
      = getPlugin? (scanPlugins env st l1) p.name
    ∧ (pluginNames (scanPlugins env st (l1 ++ .inst p :: l2))).Nodup
    ∧ (pluginNames (scanPlugins env st (l1 ++ .inst p :: l2))).count p.name = 1 := by
  have hdup : loadPlugin env (scanPlugins env st l1) (.inst p) = scanPlugins env st l1 :=
    loadPlugin_inst_dup env _ p (by rw [name_defaultShowInHelp]; exact h)
  have heq : scanPlugins env st (l1 ++ .inst p :: l2)
      = scanPlugins env (scanPlugins env st l1) l2 := by
    unfold scanPlugins
    rw [List.foldl_append, List.foldl_cons]
    unfold scanPlugins at hdup
    rw [hdup]
  have hstable : getPlugin? (scanPlugins env (scanPlugins env st l1) l2) p.name
      = getPlugin? (scanPlugins env st l1) p.name :=
    getPlugin?_scan_stable env l2 (scanPlugins env st l1) p.name (Or.inr h)
  have hnd2 : (pluginNames (scanPlugins env (scanPlugins env st l1) l2)).Nodup :=
    nodup_scan env l2 _ (nodup_scan env l1 st hnd)
  refine ⟨heq, by rw [heq]; exact hstable, by rw [heq]; exact hnd2, ?_⟩
  rw [heq]
  have hmem : p.name ∈ pluginNames (scanPlugins env (scanPlugins env st l1) l2) := by
    apply hasPlugin_true_mem
    unfold hasPlugin
    rw [hstable]
    exact h
  exact List.count_eq_one_of_mem hnd2 hmem

/-- Witness for C5: scanning `plugA`, then a duplicate `plugA2`, then
`plugB` registers `plugA` for the name `a`, keeps scanning (`plugB` is
registered) and holds exactly one descriptor named `a`. -/
theorem scan_duplicate_name_first_wins_witness :
    scanPlugins {} {} [.inst plugA, .inst plugA2, .inst plugB]
      = scanPlugins {} (scanPlugins {} {} [.inst plugA]) [.inst plugB]
    ∧ getPlugin? (scanPlugins {} {} [.inst plugA, .inst plugA2, .inst plugB]) "a"
      = getPlugin? (scanPlugins {} {} [.inst plugA]) "a"
    ∧ (pluginNames (scanPlugins {} {} [.inst plugA, .inst plugA2, .inst plugB])).Nodup
    ∧ (pluginNames (scanPlugins {} {} [.inst plugA, .inst plugA2, .inst plugB])).count "a" = 1 := by
  have h := scan_duplicate_name_first_wins {} {} [.inst plugA] [.inst plugB] plugA2
    (by decide) (by decide)
  exact h

/-! ### Claim C4 -/

theorem hasPlugin_unload_false (st : ManagerState) (n m : String)
    (h : hasPlugin st m = false) : hasPlugin (unloadPlugin st n).1 m = false := by
  rw [Bool.eq_false_iff] at h ⊢
  intro ht
  exact h (hasPlugin_unload_le st n m ht)

theorem mem_removeFirst {l : List String} {x y : String}
    (h : x ∈ removeFirst l y) : x ∈ l := by
  induction l with
  | nil => simp [removeFirst] at h
  | cons a as_ ih =>
    by_cases ha : a == y
    · simp only [removeFirst, ha, if_pos] at h
      exact List.mem_cons_of_mem _ h
    · simp only [removeFirst, ha, if_neg, Bool.false_eq_true, not_false_iff] at h
      rcases List.mem_cons.mp h with rfl | h2
      · exact List.mem_cons_self _ _
      · exact List.mem_cons_of_mem _ (ih h2)

theorem disabled_enable_sub (env : ConfigDB) (n m : String)
    (h : m ∈ (enablePlugin env n).1.disabled) : m ∈ env.disabled := by
  by_cases hc : n ∈ env.disabled
  · simp [enablePlugin, hc] at h
    exact mem_removeFirst h
  · simp [enablePlugin, hc] at h
    exact h

theorem disable_post (env : ConfigDB) (st : ManagerState) (n : String)
    (hInv : ∀ m ∈ env.disabled, hasPlugin st m = false) (hSafe : DestroySafe st) :
    (∀ m, m ∈ (disablePlugin env st n).1.disabled →
      hasPlugin (disablePlugin env st n).2.1 m = false)
    ∧ hasPlugin (disablePlugin env st n).2.1 n = false := by
  by_cases hc : n ∈ env.disabled
  · constructor
    · intro m hm
      simp [disablePlugin, hc] at hm ⊢
      exact hInv m hm
    · simp [disablePlugin, hc]
      exact hInv n hc
  · by_cases hh : hasPlugin st n = true
    · have hu := unload_removes st n hSafe hh
      constructor
      · intro m hm
        simp [disablePlugin, hc, hh] at hm ⊢
        rcases hm with hold | rfl
        · exact hasPlugin_unload_false st n m (hInv m hold)
        · exact hu.2
      · simp [disablePlugin, hc, hh]
        exact hu.2
    · have hh2 : hasPlugin st n = false := by
        rw [Bool.eq_false_iff]
        exact hh
      constructor
      · intro m hm
        simp [disablePlugin, hc, hh2] at hm ⊢
        rcases hm with hold | rfl
        · exact hInv m hold
        · exact hh2
      · simp [disablePlugin, hc, hh2]

theorem delete_post (env : ConfigDB) (fs : FileSys) (st : ManagerState) (n : String)
    (hInv : ∀ m ∈ env.disabled, hasPlugin st m = false) :
    ∀ m, m ∈ (deletePlugin env fs st n).1.disabled →
      hasPlugin (deletePlugin env fs st n).2.2.1 m = false := by
  have hfound : ∀ (st2 : ManagerState) (p : String),
      (∀ m ∈ env.disabled, hasPlugin st2 m = false) →
      ∀ m, m ∈ (deleteFound env fs st2 p n).1.disabled →
        hasPlugin (deleteFound env fs st2 p n).2.2.1 m = false := by
    intro st2 p hInv2 m hm
    by_cases hc : n ∈ env.disabled
    · simp [deleteFound, hc] at hm ⊢
      exact hInv2 m (mem_removeFirst hm)
    · simp [deleteFound, hc] at hm ⊢
      exact hInv2 m hm
  rcases hf : (deleteCandidates n).find? (fun p => pathExists fs p) with _ | pth
  · intro m hm
    simp only [deletePlugin, hf] at hm ⊢
    exact hInv m hm
  · by_cases hh : hasPlugin st n = true
    · rcases hu : unloadPlugin st n with ⟨st1, b⟩
      have hst1 : ∀ m ∈ env.disabled, hasPlugin st1 m = false := by
        intro m hm
        have h0 := hasPlugin_unload_false st n m (hInv m hm)
        rw [hu] at h0
        exact h0
      cases b
      · intro m hm
        simp only [deletePlugin, hf, hh, if_pos, hu] at hm ⊢
        exact hst1 m hm
      · intro m hm
        simp only [deletePlugin, hf, hh, if_pos, hu] at hm ⊢
        exact hfound st1 pth hst1 m hm
    · have hh2 : hasPlugin st n = false := by
        rw [Bool.eq_false_iff]
        exact hh
      intro m hm
      simp only [deletePlugin, hf, hh2, Bool.false_eq_true, if_neg,
        not_false_iff] at hm ⊢
      exact hfound st pth hInv m hm

/-- Counterexample for C4: disabling the plugin `p`, whose `destroy()`
hook throws, appends `p` to the persisted DisabledSet, reports success,
and yet leaves `p` registered — a name is simultaneously in the
DisabledSet and in the registry, and after `disablePlugin` the name is
still in the registry. -/
theorem disable_destroy_throw_invariant_counterexample :
    (disablePlugin {} stBoom "p").1.disabled = ["p"]
    ∧ hasPlugin (disablePlugin {} stBoom "p").2.1 "p" = true
    ∧ (disablePlugin {} stBoom "p").2.2 = true := by decide

/-- Claim C4 (amended): provided no registered plugin's `destroy()` hook
throws, every lifecycle operation (scan/load, unload, enable, disable,
reload, delete) preserves the invariant that a name in the persisted
DisabledSet is never registered, and after `disablePlugin n` the name `n`
is not in the registry. -/
theorem lifecycle_preserves_disabled_invariant (w : World) (op : Op)
    (hInv : RegInv w) (hSafe : DestroySafe w.st) :
    RegInv (stepOp w op)
    ∧ (∀ n, op = .disable n → hasPlugin (stepOp w op).st n = false) := by
  cases op with
  | scan cs =>
    refine ⟨?_, by intro n heq; simp at heq⟩
    intro m hm
    have hs := getPlugin?_scan_stable w.env cs w.st m (Or.inl hm)
    unfold hasPlugin
    simp only [stepOp]
    unfold getPlugin? at hs ⊢
    rw [hs]
    exact hInv m hm
  | unload n0 =>
    refine ⟨?_, by intro n heq; simp at heq⟩
    intro m hm
    exact hasPlugin_unload_false w.st n0 m (hInv m hm)
  | enable n0 =>
    refine ⟨?_, by intro n heq; simp at heq⟩
    intro m hm
    exact hInv m (disabled_enable_sub w.env n0 m hm)
  | disable n0 =>
    have hd := disable_post w.env w.st n0 (fun m hm => hInv m hm) hSafe
    refine ⟨fun m hm => hd.1 m hm, ?_⟩
    intro n heq
    cases heq
    exact hd.2
  | reload n0 cs =>
    refine ⟨?_, by intro n heq; simp at heq⟩
    intro m hm
    have base : hasPlugin w.st m = false := hInv m hm
    simp only [stepOp]
    rcases hg : getPlugin? w.st n0 with _ | pi
    · simp only [reloadPlugin, hg]
      have hs := getPlugin?_scan_stable w.env cs w.st m (Or.inl hm)
      unfold hasPlugin
      unfold getPlugin? at hs ⊢
      rw [hs]
      exact base
    · rcases hu : unloadPlugin w.st n0 with ⟨st1, b⟩
      have hst1 : hasPlugin st1 m = false := by
        have h0 := hasPlugin_unload_false w.st n0 m base
        rw [hu] at h0
        exact h0
      cases b
      · simp only [reloadPlugin, hg, hu]
        exact hst1
      · simp only [reloadPlugin, hg, hu]
        have hs := getPlugin?_scan_stable w.env cs st1 m (Or.inl hm)
        unfold hasPlugin
        unfold getPlugin? at hs ⊢
        rw [hs]
        exact hst1
  | delete n0 =>
    refine ⟨?_, by intro n heq; simp at heq⟩
    intro m hm
    exact delete_post w.env w.fs w.st n0 (fun m2 hm2 => hInv m2 hm2) m hm

/-- Witness for the amended C4: on a world holding the clean-destroy
plugin `g` with an empty DisabledSet, disabling `g` preserves the
invariant and removes `g` from the registry. -/
theorem lifecycle_preserves_disabled_invariant_witness :
    RegInv (stepOp { env := {}, st := stClean } (.disable "g"))
    ∧ hasPlugin (stepOp { env := {}, st := stClean } (.disable "g")).st "g" = false := by
  have h := lifecycle_preserves_disabled_invariant { env := {}, st := stClean }
    (.disable "g")
    (by intro n hn; simp at hn)
    (by
      intro pi hpi e
      have : pi = registerInfo plugCleanDestroy := by
        have : stClean.plugins = [registerInfo plugCleanDestroy] := by decide
        rw [this] at hpi
        simpa using hpi
      rw [this]
      simp [registerInfo, plugCleanDestroy])
  exact ⟨h.1, h.2 "g" rfl⟩

/-! ### Claim C1 -/

theorem dispatch_mem (env : ConfigDB) (ps : List PluginInfo) (cmd ct : String)
    (tier : Tier) (uid : Option Int) (pi : PluginInfo) (cd : CommandDef)
    (hmem : pi ∈ ps) (hcd : assocFind pi.inst.cmdHandlers cmd = some cd)
    (hall : (validateCommandAccess env cmd (scopeOrAll cd.scope)
      (permOrAll cd.permission) ct tier uid).allowed = true) :
    ({ plugin := pi.name, hid := cd.hid, outcome := cd.outcome } : Invocation)
      ∈ dispatchCommand env ps cmd ct tier uid := by
  apply List.mem_filterMap.mpr
  exact ⟨pi, hmem, by simp [hcd, hall]⟩

theorem dispatch_length (env : ConfigDB) (cmd ct : String) (tier : Tier)
    (uid : Option Int) : ∀ ps : List PluginInfo,
    (dispatchCommand env ps cmd ct tier uid).length
      = ps.countP (declaresAllowed env cmd ct tier uid) := by
  intro ps
  induction ps with
  | nil => rfl
  | cons pi rest ih =>
    simp only [dispatchCommand, List.filterMap_cons, List.countP_cons] at ih ⊢
    rcases hcd : assocFind pi.inst.cmdHandlers cmd with _ | cd
    · simp [declaresAllowed, hcd, ih]
    · by_cases hall : (validateCommandAccess env cmd (scopeOrAll cd.scope)
        (permOrAll cd.permission) ct tier uid).allowed = true
      · simp [declaresAllowed, hcd, hall, ih]
      · have hall2 : (validateCommandAccess env cmd (scopeOrAll cd.scope)
            (permOrAll cd.permission) ct tier uid).allowed = false := by
          rw [Bool.eq_false_iff]
          exact hall
        simp [declaresAllowed, hcd, hall2, ih]

theorem dispatch_keys (env : ConfigDB) (cmd ct : String) (tier : Tier)
    (uid : Option Int) : ∀ ps : List PluginInfo,
    (dispatchCommand env ps cmd ct tier uid).map invokedKey
      = ps.filterMap (keyDispatch env cmd ct tier uid) := by
  intro ps
  induction ps with
  | nil => rfl
  | cons pi rest ih =>
    simp only [dispatchCommand, List.filterMap_cons] at ih ⊢
    rcases hcd : assocFind pi.inst.cmdHandlers cmd with _ | cd
    · simp only [keyDispatch, hcd]
      exact ih
    · by_cases hall : (validateCommandAccess env cmd (scopeOrAll cd.scope)
        (permOrAll cd.permission) ct tier uid).allowed = true
      · simp only [keyDispatch, hcd, hall, if_pos, List.map_cons]
        rw [ih]
        rfl
      · have hall2 : (validateCommandAccess env cmd (scopeOrAll cd.scope)
            (permOrAll cd.permission) ct tier uid).allowed = false := by
          rw [Bool.eq_false_iff]
          exact hall
        simp only [keyDispatch, hcd, hall2, Bool.false_eq_true, if_neg,
          not_false_iff]
        exact ih

theorem keyDispatch_mapOutcome (env : ConfigDB) (cmd ct : String) (tier : Tier)
    (uid : Option Int) (f : String → String → HRes → HRes) (pi : PluginInfo) :
    keyDispatch env cmd ct tier uid (mapOutcome f pi)
      = keyDispatch env cmd ct tier uid pi := by
  have hfind : assocFind (mapOutcome f pi).inst.cmdHandlers cmd
      = (assocFind pi.inst.cmdHandlers cmd).map
          (fun cd => { cd with outcome := f pi.name cmd cd.outcome }) := by
    simp only [mapOutcome]
    exact assocFind_map_snd
      (fun k cd => { cd with outcome := f pi.name k cd.outcome })
      pi.inst.cmdHandlers cmd
  unfold keyDispatch
  rw [hfind]
  rcases hcd : assocFind pi.inst.cmdHandlers cmd with _ | cd
  · rfl
  · rfl

theorem dispatch_outcome_indep (env : ConfigDB) (cmd ct : String) (tier : Tier)
    (uid : Option Int) (f : String → String → HRes → HRes)
    (ps : List PluginInfo) :
    (dispatchCommand env (ps.map (mapOutcome f)) cmd ct tier uid).map invokedKey
      = (dispatchCommand env ps cmd ct tier uid).map invokedKey := by
  rw [dispatch_keys, dispatch_keys, List.filterMap_map]
  have hfun : (keyDispatch env cmd ct tier uid ∘ mapOutcome f)
      = keyDispatch env cmd ct tier uid := by
    funext pi
    exact keyDispatch_mapOutcome env cmd ct tier uid f pi
  rw [hfun]

/-- Claim C1: for an incoming message that the router resolves to a
command, every registered plugin declaring that command whose access check
passes has its handler invoked (the recorded invocation carries the
plugin, the handler identity and its caught outcome); the number of
invocations equals the number of declaring-and-allowed plugins
(multiplicity preserved); and which handlers get invoked is independent of
the handlers' outcomes — one plugin's exception cannot prevent the other
plugins' handlers for the same command from being invoked. -/
theorem handleCommand_dispatch_contract (env : ConfigDB) (ps : List PluginInfo)
    (m : Msg) (cmd : String) (args : List String)
    (hroute : routedCommand env m = some (cmd, args)) :
    (∀ pi ∈ ps, ∀ cd, assocFind pi.inst.cmdHandlers cmd = some cd →
      (validateCommandAccess env cmd (scopeOrAll cd.scope) (permOrAll cd.permission)
        m.chatType (resolveTier env m.senderUser) m.senderUser).allowed = true →
      ({ plugin := pi.name, hid := cd.hid, outcome := cd.outcome } : Invocation)
        ∈ handleCommand env ps m)
    ∧ (handleCommand env ps m).length
        = ps.countP (declaresAllowed env cmd m.chatType
            (resolveTier env m.senderUser) m.senderUser)
    ∧ (∀ f, (handleCommand env (ps.map (mapOutcome f)) m).map invokedKey
        = (handleCommand env ps m).map invokedKey) := by
  have hh : ∀ qs : List PluginInfo, handleCommand env qs m
      = dispatchCommand env qs cmd m.chatType (resolveTier env m.senderUser)
          m.senderUser := by
    intro qs
    simp [handleCommand, hroute]
  refine ⟨?_, ?_, ?_⟩
  · intro pi hmem cd hcd hall
    rw [hh]
    exact dispatch_mem env ps cmd m.chatType (resolveTier env m.senderUser)
      m.senderUser pi cd hmem hcd hall
  · rw [hh]
    exact dispatch_length env cmd m.chatType (resolveTier env m.senderUser)
      m.senderUser ps
  · intro f
    rw [hh, hh]
    exact dispatch_outcome_indep env cmd m.chatType (resolveTier env m.senderUser)
      m.senderUser f ps

/-- Witness for C1: on `/ping` with plugins `a` (clean handler) and `b`
(throwing handler), both handlers are invoked — `b`'s exception recorded,
`a` unaffected — the invocation count is the declaring-plugin count, and
replacing every outcome leaves the invoked-handler list unchanged. -/
theorem handleCommand_dispatch_contract_witness :
    ({ plugin := "a", hid := 1, outcome := .ok } : Invocation)
      ∈ handleCommand envHost psAB msgPing
    ∧ ({ plugin := "b", hid := 2, outcome := .err "boom" } : Invocation)
      ∈ handleCommand envHost psAB msgPing
    ∧ (handleCommand envHost psAB msgPing).length
        = psAB.countP (declaresAllowed envHost "ping" "private" .user none)
    ∧ (handleCommand envHost (psAB.map (mapOutcome (fun _ _ _ => .err "dead")))
        msgPing).map invokedKey
      = (handleCommand envHost psAB msgPing).map invokedKey := by
  have h := handleCommand_dispatch_contract envHost psAB msgPing "ping" []
    (by decide)
  refine ⟨?_, ?_, h.2.1, h.2.2 (fun _ _ _ => .err "dead")⟩
  · exact h.1 (registerInfo plugA) (by decide) pingOk (by decide) (by decide)
  · exact h.1 (registerInfo plugB) (by decide) pingBoom (by decide) (by decide)

/-! ### Claim C6 -/

/-- Counterexample for C6: in self-operated mode the account's own caller,
resolved to tier `user`, passes a command of effective permission
`"admin"` — the claim's unqualified "tier user is denied" is false on the
code (the self-identity exception applies to every permission tier, not
only to `"owner"`). -/
theorem validate_admin_self_user_counterexample :
    (validateCommandAccess { isUserAccount := true, myId := some 7 } "x"
      (.str "all") "admin" "private" .user (some 7)).allowed = true := by decide

/-- Claim C6 (amended): with no persisted override for the command and a
passing scope, a command of effective permission `"owner"` denies an
admin-tier caller with a human-readable reason unless the runtime is in
self-operated mode and the caller is the account itself; a command of
effective permission `"admin"` passes tiers `admin` and `owner` and denies
tier `user` — the latter again unless the self-operated self-identity
exception applies, in which case even tier `user` passes. -/
theorem validate_permission_tiers (env : ConfigDB) (cmd ct : String)
    (uid : Option Int) (hov : assocFind env.overrides cmd = none) :
    (selfCaller env uid = false →
      validateCommandAccess env cmd (.str "all") "owner" ct .admin uid
        = { allowed := false, reason := some "此命令只有超级管理员可以使用" })
    ∧ (selfCaller env uid = true →
      (validateCommandAccess env cmd (.str "all") "owner" ct .admin uid).allowed
        = true)
    ∧ (validateCommandAccess env cmd (.str "all") "admin" ct .admin uid).allowed
        = true
    ∧ (validateCommandAccess env cmd (.str "all") "admin" ct .owner uid).allowed
        = true
    ∧ (selfCaller env uid = false →
      validateCommandAccess env cmd (.str "all") "admin" ct .user uid
        = { allowed := false, reason := some "此命令需要管理员权限" })
    ∧ (selfCaller env uid = true →
      (validateCommandAccess env cmd (.str "all") "admin" ct .user uid).allowed
        = true) := by
  by_cases hu : env.isUserAccount = true <;>
    by_cases hs : uidIsSelf env uid = true <;>
      refine ⟨?_, ?_, ?_, ?_, ?_, ?_⟩ <;>
        simp [validateCommandAccess, applyOverride, hov, selfCaller, hu, hs]

/-- Witness for the amended C6: concrete checks in bot mode (admin denied
for `"owner"`, user denied for `"admin"`, admin and owner pass) and in
self-operated mode for the self caller (admin passes `"owner"`, user
passes `"admin"`). -/
theorem validate_permission_tiers_witness :
    validateCommandAccess {} "x" (.str "all") "owner" "group" .admin none
      = { allowed := false, reason := some "此命令只有超级管理员可以使用" }
    ∧ (validateCommandAccess {} "x" (.str "all") "admin" "group" .admin none).allowed
        = true
    ∧ (validateCommandAccess {} "x" (.str "all") "admin" "group" .owner none).allowed
        = true
    ∧ validateCommandAccess {} "x" (.str "all") "admin" "group" .user none
      = { allowed := false, reason := some "此命令需要管理员权限" }
    ∧ (validateCommandAccess { isUserAccount := true, myId := some 7 } "x"
        (.str "all") "owner" "group" .admin (some 7)).allowed = true
    ∧ (validateCommandAccess { isUserAccount := true, myId := some 7 } "x"
        (.str "all") "admin" "group" .user (some 7)).allowed = true := by
  have h1 := validate_permission_tiers {} "x" "group" none (by decide)
  have h2 := validate_permission_tiers { isUserAccount := true, myId := some 7 }
    "x" "group" (some 7) (by decide)
  exact ⟨h1.1 (by decide), h1.2.2.1, h1.2.2.2.1, h1.2.2.2.2.1 (by decide),
    h2.2.1 (by decide), h2.2.2.2.2.2 (by decide)⟩

/-! ### Claim C7 -/

/-- Claim C7: for a new text-bearing message, the router uses the
persisted prefix list when configured and non-empty and the hard-coded
defaults otherwise; the selected prefix is the highest-priority (first, in
the configured order) prefix that the text starts with; and when no prefix
of the set matches the start of the text, the event is ignored and no
handler runs. -/
theorem router_prefix_selection (env : ConfigDB) (ps : List PluginInfo) (m : Msg)
    (t : String) (hx : extractText m.content = some t)
    (hne : (sTrim t == "") = false) :
    ((env.prefixesCfg = none ∨ env.prefixesCfg = some []) →
      effectivePrefixes env = defaultPrefixes)
    ∧ ((∀ q ∈ effectivePrefixes env, sStarts t q = false) →
      routedCommand env m = none ∧ handleCommand env ps m = [])
    ∧ (∀ l1 pfx l2, effectivePrefixes env = l1 ++ pfx :: l2 →
      (∀ q ∈ l1, sStarts t q = false) → sStarts t pfx = true →
      routedCommand env m = parseWith env pfx t) := by
  refine ⟨?_, ?_, ?_⟩
  · intro h
    rcases h with h | h <;> simp [effectivePrefixes, h]
  · intro h
    have hfind : (effectivePrefixes env).find? (fun p => sStarts t p) = none := by
      rw [List.find?_eq_none]
      intro q hq
      simp [h q hq]
    have hr : routedCommand env m = none := by
      simp [routedCommand, hx, hne, parseCommand, hfind]
    exact ⟨hr, by simp [handleCommand, hr]⟩
  · intro l1 pfx l2 hsplit hl1 hp
    have hfind : (effectivePrefixes env).find? (fun p => sStarts t p) = some pfx := by
      rw [hsplit, List.find?_append]
      have h1 : l1.find? (fun p => sStarts t p) = none := by
        rw [List.find?_eq_none]
        intro q hq
        simp [hl1 q hq]
      rw [h1, List.find?_cons_of_pos _ hp]
      rfl
    simp [routedCommand, hx, hne, parseCommand, hfind]

/-- Witness for C7: with no configured prefix list the defaults are in
force; `hello world` matches no default prefix, so the event is ignored
and no handler runs; and `/ping` selects `/`, the first matching prefix of
the default order. -/
theorem router_prefix_selection_witness :
    effectivePrefixes envHost = defaultPrefixes
    ∧ handleCommand envHost psAB msgPlain = []
    ∧ routedCommand envHost msgPing = parseWith envHost "/" "/ping" := by
  have hplain := router_prefix_selection envHost psAB msgPlain "hello world"
    (by decide) (by decide)
  have hping := router_prefix_selection envHost psAB msgPing "/ping"
    (by decide) (by decide)
  refine ⟨hplain.1 (Or.inl (by decide)), (hplain.2.1 (by decide)).2, ?_⟩
  exact hping.2.2 [] "/" ["!", "！", ".", "#"] (by decide) (by decide) (by decide)

/-! ### Claim C8 -/

/-- Claim C8: when the command token carries an `@mention` suffix and the
host's own handle is known, a mention of another bot makes the router
silently ignore the event (no handler runs), while a mention of the host
itself is processed with the suffix stripped. -/
theorem router_mention_disambiguation (env : ConfigDB) (ps : List PluginInfo)
    (m : Msg) (t pfx base target u : String)
    (hx : extractText m.content = some t)
    (hne : (sTrim t == "") = false)
    (hfind : (effectivePrefixes env).find? (fun q => sStarts t q) = some pfx)
    (hat : atSplit ((splitWsPlus (sTrim (sDrop t (sLen pfx)))).headD "")
      = some (base, target))
    (hu : env.activeUsernames.head? = some u)
    (hu2 : (u == "") = false) :
    ((u == target) = false →
      routedCommand env m = none ∧ handleCommand env ps m = [])
    ∧ ((u == target) = true →
      routedCommand env m
        = some (base, (splitWsPlus (sTrim (sDrop t (sLen pfx)))).tail)) := by
  have hat2 : atSplit ((splitWsPlus (sTrim (sDrop t (sLen pfx)))).head?.getD "")
      = some (base, target) := by
    simpa using hat
  have hu3 : ¬u = "" := by simpa using hu2
  constructor
  · intro hcase
    have hcase2 : ¬u = target := by simpa using hcase
    have hr : routedCommand env m = none := by
      simp [routedCommand, hx, hne, parseCommand, hfind, parseWith, mentionCheck,
        hat2, hu, hu3, hcase2]
    exact ⟨hr, by simp [handleCommand, hr]⟩
  · intro hcase
    have hcase2 : u = target := by simpa using hcase
    simp [routedCommand, hx, hne, parseCommand, hfind, parseWith, mentionCheck,
      hat2, hu, hcase2]

/-- Witness for C8: on a host whose handle is `mybot`, `/ping@otherbot`
is ignored (no handler runs even though two plugins declare `ping`) and
`/ping@mybot` resolves to the command `ping` with the suffix stripped. -/
theorem router_mention_disambiguation_witness :
    routedCommand envHost msgPingOther = none
    ∧ handleCommand envHost psAB msgPingOther = []
    ∧ routedCommand envHost msgPingSelf = some ("ping", []) := by
  have hother := router_mention_disambiguation envHost psAB msgPingOther
    "/ping@otherbot" "/" "ping" "otherbot" "mybot"
    (by decide) (by decide) (by decide) (by decide) (by decide) (by decide)
  have hself := router_mention_disambiguation envHost psAB msgPingSelf
    "/ping@mybot" "/" "ping" "mybot" "mybot"
    (by decide) (by decide) (by decide) (by decide) (by decide) (by decide)
  exact ⟨(hother.1 (by decide)).1, (hother.1 (by decide)).2,
    hself.2 (by decide)⟩

end Fuyu
